import Mathlib

/-!
Shallow embedding of `docling/models/google_vision_ocr_model.py`
(class `GoogleVisionOcrModel`), verifying the translation contract of the
Google Vision OCR adapter.

Modelling conventions:
* Coordinates and confidences are rationals (`ℚ`); Google Vision vertex
  coordinates are integers (`ℤ`), divided by the scale factor on output.
* The remote service (`reader.document_text_detection`) is an oracle,
  a function from the region index to a `VisionResponse`.
* Side effects (rasterization, remote calls, log messages, handing the
  accumulated cells to `post_process_cells`, debug drawing) are recorded
  as an explicit event trace.
* A raised exception (a failed `assert`, or the `IndexError` from
  `pages[0]` on an empty page list) is modelled by `RunRes.crash` /
  `StepResult.crashed`; events emitted before the raise are kept.
* External collaborator types (`BoundingBox` from docling-core, `Page`
  and its backend) are modelled by the fields this adapter consults:
  a region by its `area()` value, a page by `_backend is None` /
  `_backend.is_valid()` and by its `get_ocr_rects` result.
-/

namespace GVOcr

/-- A vertex of a word's bounding polygon, in raster (pixel) space. -/
structure Vertex where
  x : ℤ
  y : ℤ
deriving DecidableEq

/-- A symbol of the Vision response: its text and its confidence. -/
structure Symbol where
  text : String
  confidence : ℚ
deriving DecidableEq

/-- A word of the Vision response: its symbols and the vertices of
`word.bounding_box`. -/
structure GWord where
  symbols : List Symbol
  vertices : List Vertex
deriving DecidableEq

/-- A paragraph of the Vision response. -/
structure GParagraph where
  words : List GWord
deriving DecidableEq

/-- A block of the Vision response. -/
structure GBlock where
  paragraphs : List GParagraph
deriving DecidableEq

/-- A page of `response.full_text_annotation`. -/
structure GPage where
  blocks : List GBlock
deriving DecidableEq

/-- The parts of a Vision API response this adapter consults:
`response.error.message`, `response.error.code`,
`len(response.text_annotations)` and `response.full_text_annotation.pages`. -/
structure VisionResponse where
  errorMessage : String
  errorCode : ℤ
  textAnnotationsCount : ℕ
  pages : List GPage
deriving DecidableEq

/-- An axis-aligned bounding box in page coordinates, top-left origin
(the docling-core `BoundingBox` the adapter builds `from_tuple`). -/
structure BoundingBox where
  l : ℚ
  t : ℚ
  r : ℚ
  b : ℚ
deriving DecidableEq

/-- The docling-core `TextCell` fields the adapter fills in. -/
structure TextCell where
  index : ℕ
  text : String
  orig : String
  from_ocr : Bool
  confidence : ℚ
  rect : BoundingBox
deriving DecidableEq

/-- An OCR region (`ocr_rect` from `get_ocr_rects`): the external
docling-core rectangle, of which this adapter consults only `area()`
(the rectangle itself is otherwise only forwarded to the backend's
rasterizer, which the oracle absorbs). -/
structure OcrRect where
  area : ℚ
deriving DecidableEq

/-- A pipeline page, as consulted by the adapter: `_backend is None` is
`backend = none`, `_backend.is_valid()` is the `Bool` inside, and `rects`
is the (externally computed) result of `get_ocr_rects(page)`. -/
structure Page where
  pid : ℕ
  backend : Option Bool
  rects : List OcrRect
deriving DecidableEq

/-- `self.scale = 3  # multiplier for 72 dpi == 216 dpi.` -/
def scale : ℚ := 3

/-- The literal `100.0` used when a word has no symbols. -/
def fallbackConfidence : ℚ := 100

/-- `np.mean` on a list of rationals: sum divided by length. -/
def np_mean (l : List ℚ) : ℚ := l.sum / (l.length : ℚ)

/-- `float(np.mean([symbol.confidence for symbol in word.symbols]) if word.symbols else 100.0)` -/
def wordConf (w : GWord) : ℚ :=
  if w.symbols.isEmpty then fallbackConfidence
  else np_mean (w.symbols.map (·.confidence))

/-- Python `min` over a list of integers.  The source only ever applies it
to the vertex list of a `bounding_box`, which is non-empty (Python `min`
raises on an empty sequence; the `[]` case below is an unreachable
default). -/
def listMin : List ℤ → ℤ
  | [] => 0
  | x :: xs => xs.foldl min x

/-- Python `max` over a list of integers (same convention as `listMin`). -/
def listMax : List ℤ → ℤ
  | [] => 0
  | x :: xs => xs.foldl max x

/-- The `TextCell` built for one word at running index `idx`:
text is the concatenation of the symbol texts, confidence is `wordConf`,
and the rectangle is min/max of the vertex coordinates divided by
`scale`. -/
def cellOfWord (idx : ℕ) (w : GWord) : TextCell :=
  let wtext := String.join (w.symbols.map (·.text))
  { index := idx
    text := wtext
    orig := wtext
    from_ocr := true
    confidence := wordConf w
    rect :=
      { l := (listMin (w.vertices.map (·.x)) : ℚ) / scale
        t := (listMin (w.vertices.map (·.y)) : ℚ) / scale
        r := (listMax (w.vertices.map (·.x)) : ℚ) / scale
        b := (listMax (w.vertices.map (·.y)) : ℚ) / scale } }

/-- The words of a response page, in the nested iteration order
`for block ... for paragraph ... for word ...`. -/
def pageWords (gp : GPage) : List GWord :=
  (gp.blocks.map (fun b => (b.paragraphs.map (·.words)).flatten)).flatten

/-- The region-local cell loop: `cells.append(TextCell(index=len(cells), ...))`. -/
def mkCellsLoop : List GWord → List TextCell → List TextCell
  | [], acc => acc
  | w :: rest, acc => mkCellsLoop rest (acc ++ [cellOfWord acc.length w])

/-- The cells built from one response page (`cells` after the word loop). -/
def cellsOfGPage (gp : GPage) : List TextCell :=
  mkCellsLoop (pageWords gp) []

/-- The observable side effects of processing, tagged with the index of
the region (in `ocr_rects` order) that caused them. -/
inductive Event where
  | rasterize (i : ℕ)
  | remoteCall (i : ℕ)
  | logError (i : ℕ)
  | logWarning (i : ℕ)
  | postProcess (cells : List TextCell)
  | draw
deriving DecidableEq

/-- Outcome of a processing fragment: the accumulated cells, or an
uncaught exception. -/
inductive RunRes where
  | ok (cells : List TextCell)
  | crash
deriving DecidableEq

/-- The body of the `for ocr_rect in ocr_rects` loop for one region at
index `i`, given the service response `resp` the oracle returns for it:
skip a zero-area region; otherwise rasterize and call the service; on a
service error or an empty `text_annotations`, log and contribute nothing;
warn on a page count other than one; `pages[0]` raises (crash) when the
page list is empty, otherwise the region's cells come from the first
page. -/
def processRect (resp : VisionResponse) (i : ℕ) (r : OcrRect) :
    List Event × RunRes :=
  if r.area = 0 then ([], .ok [])
  else if resp.errorMessage ≠ "" then
    ([.rasterize i, .remoteCall i, .logError i], .ok [])
  else if resp.textAnnotationsCount = 0 then
    ([.rasterize i, .remoteCall i, .logError i], .ok [])
  else
    let warn : List Event :=
      if resp.pages.length ≠ 1 then [.logWarning i] else []
    match resp.pages with
    | [] => ([.rasterize i, .remoteCall i] ++ warn, .crash)
    | gp :: _ => ([.rasterize i, .remoteCall i] ++ warn, .ok (cellsOfGPage gp))

/-- The region loop: `i` is the index of the next region, `acc` is
`all_ocr_cells` so far, `evs` the events so far.  A crash aborts the
loop, keeping the events emitted before the raise. -/
def processRectsLoop (oracle : ℕ → VisionResponse) :
    List OcrRect → ℕ → List TextCell → List Event → List Event × RunRes
  | [], _, acc, evs => (evs, .ok acc)
  | r :: rest, i, acc, evs =>
    match processRect (oracle i) i r with
    | (e2, .crash) => (evs ++ e2, .crash)
    | (e2, .ok cs) => processRectsLoop oracle rest (i + 1) (acc ++ cs) (evs ++ e2)

/-- All-region processing of one valid page: the full event trace and the
`all_ocr_cells` list. -/
def processRects (oracle : ℕ → VisionResponse) (rects : List OcrRect) :
    List Event × RunRes :=
  processRectsLoop oracle rects 0 [] []

/-- Processing of one valid page including the `post_process_cells` hand-off
and the optional debug drawing (`settings.debug.visualize_ocr`). -/
def processPage (vis : Bool) (oracle : ℕ → VisionResponse)
    (rects : List OcrRect) : List Event × RunRes :=
  match processRects oracle rects with
  | (evs, .crash) => (evs, .crash)
  | (evs, .ok cells) =>
    (evs ++ [.postProcess cells] ++ (if vis then [.draw] else []), .ok cells)

/-- Result of consuming (part of) the page generator: the event trace, the
pages yielded, and whether an exception was raised. -/
structure StepResult where
  events : List Event
  yielded : List Page
  crashed : Bool
deriving DecidableEq

/-- One iteration of `for page in page_batch` in enabled mode:
`assert page._backend is not None` crashes on a `none` backend; an
invalid backend passes the page through; otherwise the page is processed
and yielded (unless processing raised). -/
def pageStep (vis : Bool) (oracle : ℕ → VisionResponse) (page : Page) :
    StepResult :=
  match page.backend with
  | none => ⟨[], [], true⟩
  | some false => ⟨[], [page], false⟩
  | some true =>
    match processPage vis oracle page.rects with
    | (evs, .crash) => ⟨evs, [], true⟩
    | (evs, .ok _) => ⟨evs, [page], false⟩

/-- The enabled-mode page loop over a batch; a crash aborts the batch,
keeping the pages yielded before it. -/
def callBatch (vis : Bool) (oracle : Page → ℕ → VisionResponse) :
    List Page → StepResult
  | [] => ⟨[], [], false⟩
  | p :: ps =>
    let r := pageStep vis (oracle p) p
    if r.crashed then r
    else
      let rest := callBatch vis oracle ps
      ⟨r.events ++ rest.events, r.yielded ++ rest.yielded, rest.crashed⟩

/-- `GoogleVisionOcrModel.__call__`: disabled mode is `yield from
page_batch` with no side effects; enabled mode runs the page loop. -/
def callModel (enabled vis : Bool) (oracle : Page → ℕ → VisionResponse)
    (batch : List Page) : StepResult :=
  if enabled then callBatch vis oracle batch else ⟨[], batch, false⟩

/-- Specification-facing restatement of one region's cell contribution:
empty when the region is skipped (zero area, service error, no
annotations, or no response page), otherwise the cells of the first
response page. -/
def rectCells (resp : VisionResponse) (r : OcrRect) : List TextCell :=
  if r.area = 0 then []
  else if resp.errorMessage ≠ "" then []
  else if resp.textAnnotationsCount = 0 then []
  else
    match resp.pages with
    | [] => []
    | gp :: _ => cellsOfGPage gp

/-- The concatenation of the per-region contributions, regions indexed
from `i`. -/
def pageCellsFrom (oracle : ℕ → VisionResponse) (i : ℕ) :
    List OcrRect → List TextCell
  | [] => []
  | r :: rest => rectCells (oracle i) r ++ pageCellsFrom oracle (i + 1) rest

/-- The full event trace of the region loop when no region crashes,
regions indexed from `i`. -/
def eventsFrom (oracle : ℕ → VisionResponse) (i : ℕ) :
    List OcrRect → List Event
  | [] => []
  | r :: rest => (processRect (oracle i) i r).1 ++ eventsFrom oracle (i + 1) rest

/-! ### Concrete fixtures for witnesses and counterexamples -/

/-- A one-symbol word with a single vertex at the origin. -/
def word1 : GWord := ⟨[⟨"a", 1⟩], [⟨0, 0⟩]⟩

/-- A response page holding exactly `word1`. -/
def gpage1 : GPage := ⟨[⟨[⟨[word1]⟩]⟩]⟩

/-- A well-formed one-page response with one annotation. -/
def resp1 : VisionResponse := ⟨"", 0, 1, [gpage1]⟩

/-- A response with no error and one annotation but an empty page list. -/
def respNoPages : VisionResponse := ⟨"", 0, 1, []⟩

/-- A response with no error, one annotation and two pages. -/
def resp2pages : VisionResponse := ⟨"", 0, 1, [gpage1, gpage1]⟩

/-- A service-error response. -/
def respErr : VisionResponse := ⟨"boom", 3, 0, []⟩

/-- A region of area 1. -/
def rect1 : OcrRect := ⟨1⟩

/-- Two non-empty regions. -/
def rects2 : List OcrRect := [⟨1⟩, ⟨1⟩]

/-- A zero-area region followed by a non-empty one. -/
def rectsZ : List OcrRect := [⟨0⟩, ⟨1⟩]

/-- The loop events of two clean one-word regions. -/
def demoEvs2 : List Event :=
  [.rasterize 0, .remoteCall 0, .rasterize 1, .remoteCall 1]

/-- An oracle whose first region call fails and whose later calls return
`resp1`. -/
def oracleErr : ℕ → VisionResponse := fun i => if i = 0 then respErr else resp1

/-- The cells two copies of `gpage1` produce. -/
def demoCellsTwo : List TextCell := cellsOfGPage gpage1 ++ cellsOfGPage gpage1

/-- A word whose vertices span raster coordinates (0,0)-(300,300). -/
def demoWord300 : GWord :=
  ⟨[⟨"x", 1⟩], [⟨0, 0⟩, ⟨300, 0⟩, ⟨300, 300⟩, ⟨0, 300⟩]⟩

/-- A word with symbol confidences 0.8, 0.9 and 1.0. -/
def demoWord36 : GWord :=
  ⟨[⟨"a", 4/5⟩, ⟨"b", 9/10⟩, ⟨"c", 1⟩], [⟨0, 0⟩]⟩

/-- A page whose backend reports invalid. -/
def demoInvalidPage : Page := ⟨0, some false, [rect1]⟩

/-- A page whose backend is `None`. -/
def demoNonePage : Page := ⟨1, none, []⟩

/-! ### Helper lemmas -/

lemma cellOfWord_index (idx : ℕ) (w : GWord) : (cellOfWord idx w).index = idx := rfl

lemma mkCellsLoop_map_index (ws : List GWord) (acc : List TextCell) :
    (mkCellsLoop ws acc).map (·.index)
      = acc.map (·.index) ++ List.range' acc.length ws.length := by
  induction ws generalizing acc with
  | nil => simp [mkCellsLoop]
  | cons w rest ih =>
    rw [mkCellsLoop, ih]
    simp only [List.length_cons, List.range'_succ, List.length_append,
      List.map_append, List.map_cons, List.map_nil, cellOfWord_index,
      List.length_singleton]
    simp [List.append_assoc]

lemma mkCellsLoop_length (ws : List GWord) (acc : List TextCell) :
    (mkCellsLoop ws acc).length = acc.length + ws.length := by
  have h := congrArg List.length (mkCellsLoop_map_index ws acc)
  simpa using h

lemma cellsOfGPage_map_index (gp : GPage) :
    (cellsOfGPage gp).map (·.index) = List.range (pageWords gp).length := by
  rw [cellsOfGPage, mkCellsLoop_map_index, List.range_eq_range']
  simp

lemma cellsOfGPage_length (gp : GPage) :
    (cellsOfGPage gp).length = (pageWords gp).length := by
  have h := congrArg List.length (cellsOfGPage_map_index gp)
  simpa using h

/-- Within one region's contribution, the k-th cell carries index k. -/
lemma rectCells_map_index (resp : VisionResponse) (r : OcrRect) :
    (rectCells resp r).map (·.index) = List.range (rectCells resp r).length := by
  unfold rectCells
  split_ifs <;> try simp
  split
  · simp
  · rw [cellsOfGPage_map_index, cellsOfGPage_length]

/-- When `processRect` does not crash, its cells are `rectCells`. -/
lemma processRect_ok (resp : VisionResponse) (i : ℕ) (r : OcrRect)
    (evs : List Event) (cs : List TextCell)
    (h : processRect resp i r = (evs, .ok cs)) : cs = rectCells resp r := by
  unfold processRect at h
  unfold rectCells
  rcases hp : resp.pages with _ | ⟨gp, rest⟩ <;> rw [hp] at h <;>
    split_ifs at h ⊢ <;> simp_all [Prod.ext_iff]

/-- Every event `processRect` emits is tagged with its own region index. -/
lemma processRect_events (resp : VisionResponse) (i : ℕ) (r : OcrRect)
    (e : Event) (he : e ∈ (processRect resp i r).1) :
    e = .rasterize i ∨ e = .remoteCall i ∨ e = .logError i ∨ e = .logWarning i := by
  unfold processRect at he
  rcases hp : resp.pages with _ | ⟨gp, rest⟩ <;> rw [hp] at he <;>
    split_ifs at he <;> simp_all <;> tauto

/-- A zero-area region emits no events at all. -/
lemma processRect_zero_area (resp : VisionResponse) (i : ℕ) (r : OcrRect)
    (h : r.area = 0) : processRect resp i r = ([], .ok []) := by
  unfold processRect
  simp [h]

/-- A service-error region logs the error and contributes nothing. -/
lemma processRect_error (resp : VisionResponse) (i : ℕ) (r : OcrRect)
    (ha : r.area ≠ 0) (he : resp.errorMessage ≠ "") :
    processRect resp i r = ([.rasterize i, .remoteCall i, .logError i], .ok []) := by
  unfold processRect
  simp [ha, he]

/-- If the loop finishes without crashing, `all_ocr_cells` is the initial
accumulator followed by the concatenated per-region contributions. -/
lemma processRectsLoop_ok (oracle : ℕ → VisionResponse) (rects : List OcrRect)
    (i : ℕ) (acc : List TextCell) (evs evs2 : List Event) (cells : List TextCell)
    (h : processRectsLoop oracle rects i acc evs = (evs2, .ok cells)) :
    cells = acc ++ pageCellsFrom oracle i rects := by
  induction rects generalizing i acc evs with
  | nil =>
    unfold processRectsLoop at h
    simp only [Prod.mk.injEq, RunRes.ok.injEq] at h
    simp [pageCellsFrom, ← h.2]
  | cons r rest ih =>
    unfold processRectsLoop at h
    rcases hp : processRect (oracle i) i r with ⟨e2, res⟩
    rw [hp] at h
    cases res with
    | crash => simp at h
    | ok cs =>
      have hcs : cs = rectCells (oracle i) r := processRect_ok _ _ _ _ _ hp
      have := ih (i + 1) (acc ++ cs) (evs ++ e2) h
      rw [this, hcs, pageCellsFrom, List.append_assoc]

/-- Any event the loop emits was either already in the accumulator or was
emitted by `processRect` for some region of the list. -/
lemma processRectsLoop_events (oracle : ℕ → VisionResponse)
    (rects : List OcrRect) (i : ℕ) (acc : List TextCell) (evs : List Event)
    (e : Event) (he : e ∈ (processRectsLoop oracle rects i acc evs).1) :
    e ∈ evs ∨ ∃ k r, rects.get? k = some r ∧
      e ∈ (processRect (oracle (i + k)) (i + k) r).1 := by
  induction rects generalizing i acc evs with
  | nil =>
    unfold processRectsLoop at he
    exact Or.inl he
  | cons r rest ih =>
    unfold processRectsLoop at he
    rcases hp : processRect (oracle i) i r with ⟨e2, res⟩
    rw [hp] at he
    cases res with
    | crash =>
      simp only [List.mem_append] at he
      rcases he with he | he
      · exact Or.inl he
      · exact Or.inr ⟨0, r, rfl, by simpa [hp] using he⟩
    | ok cs =>
      rcases ih (i + 1) (acc ++ cs) (evs ++ e2) he with h1 | ⟨k, r', hk, hmem⟩
      · simp only [List.mem_append] at h1
        rcases h1 with h1 | h1
        · exact Or.inl h1
        · exact Or.inr ⟨0, r, rfl, by simpa [hp] using h1⟩
      · exact Or.inr ⟨k + 1, r', by simpa using hk, by
          have : i + 1 + k = i + (k + 1) := by omega
          rwa [this] at hmem⟩

/-- When the loop finishes without crashing, its event trace is the
initial trace followed by every region's events in order. -/
lemma processRectsLoop_ok_events (oracle : ℕ → VisionResponse)
    (rects : List OcrRect) (i : ℕ) (acc : List TextCell)
    (evs evs2 : List Event) (cells : List TextCell)
    (h : processRectsLoop oracle rects i acc evs = (evs2, .ok cells)) :
    evs2 = evs ++ eventsFrom oracle i rects := by
  induction rects generalizing i acc evs with
  | nil =>
    unfold processRectsLoop at h
    simp only [Prod.mk.injEq] at h
    simp [eventsFrom, h.1.symm]
  | cons r rest ih =>
    unfold processRectsLoop at h
    rcases hp : processRect (oracle i) i r with ⟨e2, res⟩
    rw [hp] at h
    cases res with
    | crash => simp at h
    | ok cs =>
      have := ih (i + 1) (acc ++ cs) (evs ++ e2) h
      rw [this, eventsFrom, hp, List.append_assoc]

/-- Any event emitted for a listed region appears in the full trace. -/
lemma eventsFrom_mem (oracle : ℕ → VisionResponse) (rects : List OcrRect)
    (i k : ℕ) (r : OcrRect) (hk : rects.get? k = some r) (e : Event)
    (he : e ∈ (processRect (oracle (i + k)) (i + k) r).1) :
    e ∈ eventsFrom oracle i rects := by
  induction rects generalizing i k with
  | nil => simp at hk
  | cons r0 rest ih =>
    cases k with
    | zero =>
      simp only [List.get?] at hk
      injection hk with hr
      subst hr
      simp only [Nat.add_zero] at he
      exact List.mem_append.mpr (Or.inl he)
    | succ k' =>
      simp only [List.get?] at hk
      have : i + (k' + 1) = (i + 1) + k' := by omega
      rw [this] at he
      exact List.mem_append.mpr (Or.inr (ih (i + 1) k' hk he))

/-- No event tagged with a zero-area region's index is ever emitted. -/
lemma processRects_zero_area_events (oracle : ℕ → VisionResponse)
    (rects : List OcrRect) (k : ℕ) (r : OcrRect)
    (hk : rects.get? k = some r) (h0 : r.area = 0) (e : Event)
    (he : e ∈ (processRects oracle rects).1) :
    e ≠ .rasterize k ∧ e ≠ .remoteCall k := by
  unfold processRects at he
  obtain h | ⟨k', r', hk', hmem⟩ :=
    processRectsLoop_events oracle rects 0 [] [] e he
  · simp at h
  · simp only [Nat.zero_add] at hk' hmem
    have htag := processRect_events _ _ _ _ hmem
    constructor <;> rintro rfl
    · rcases htag with h1 | h1 | h1 | h1
      · injection h1 with h2
        subst h2
        rw [hk] at hk'
        injection hk' with hr
        subst hr
        rw [processRect_zero_area (oracle k) k r h0] at hmem
        simp at hmem
      · exact Event.noConfusion h1
      · exact Event.noConfusion h1
      · exact Event.noConfusion h1
    · rcases htag with h1 | h1 | h1 | h1
      · exact Event.noConfusion h1
      · injection h1 with h2
        subst h2
        rw [hk] at hk'
        injection hk' with hr
        subst hr
        rw [processRect_zero_area (oracle k) k r h0] at hmem
        simp at hmem
      · exact Event.noConfusion h1
      · exact Event.noConfusion h1

lemma foldl_min_le_init (xs : List ℤ) (a : ℤ) : xs.foldl min a ≤ a := by
  induction xs generalizing a with
  | nil => simp
  | cons x xs ih =>
    exact le_trans (ih (min a x)) (min_le_left a x)

lemma foldl_min_le_mem (xs : List ℤ) (a b : ℤ) (hb : b ∈ xs) :
    xs.foldl min a ≤ b := by
  induction xs generalizing a with
  | nil => simp at hb
  | cons x xs ih =>
    rcases List.mem_cons.mp hb with rfl | hb'
    · exact le_trans (foldl_min_le_init xs (min a b)) (min_le_right a b)
    · exact ih (min a x) hb'

lemma foldl_min_mem (xs : List ℤ) (a : ℤ) :
    xs.foldl min a = a ∨ xs.foldl min a ∈ xs := by
  induction xs generalizing a with
  | nil => exact Or.inl rfl
  | cons x xs ih =>
    simp only [List.foldl_cons]
    rcases ih (min a x) with h | h
    · rcases min_choice a x with h1 | h1
      · exact Or.inl (h.trans h1)
      · exact Or.inr (List.mem_cons.mpr (Or.inl (h.trans h1)))
    · exact Or.inr (List.mem_cons.mpr (Or.inr h))

lemma listMin_le (l : List ℤ) (b : ℤ) (hb : b ∈ l) : listMin l ≤ b := by
  cases l with
  | nil => simp at hb
  | cons a xs =>
    rcases List.mem_cons.mp hb with rfl | hb'
    · exact foldl_min_le_init xs b
    · exact foldl_min_le_mem xs a b hb'

lemma listMin_mem (l : List ℤ) (h : l ≠ []) : listMin l ∈ l := by
  cases l with
  | nil => exact absurd rfl h
  | cons a xs =>
    rcases foldl_min_mem xs a with h1 | h1
    · exact List.mem_cons.mpr (Or.inl h1)
    · exact List.mem_cons.mpr (Or.inr h1)

lemma foldl_max_ge_init (xs : List ℤ) (a : ℤ) : a ≤ xs.foldl max a := by
  induction xs generalizing a with
  | nil => simp
  | cons x xs ih =>
    exact le_trans (le_max_left a x) (ih (max a x))

lemma foldl_max_ge_mem (xs : List ℤ) (a b : ℤ) (hb : b ∈ xs) :
    b ≤ xs.foldl max a := by
  induction xs generalizing a with
  | nil => simp at hb
  | cons x xs ih =>
    rcases List.mem_cons.mp hb with rfl | hb'
    · exact le_trans (le_max_right a b) (foldl_max_ge_init xs (max a b))
    · exact ih (max a x) hb'

lemma foldl_max_mem (xs : List ℤ) (a : ℤ) :
    xs.foldl max a = a ∨ xs.foldl max a ∈ xs := by
  induction xs generalizing a with
  | nil => exact Or.inl rfl
  | cons x xs ih =>
    simp only [List.foldl_cons]
    rcases ih (max a x) with h | h
    · rcases max_choice a x with h1 | h1
      · exact Or.inl (h.trans h1)
      · exact Or.inr (List.mem_cons.mpr (Or.inl (h.trans h1)))
    · exact Or.inr (List.mem_cons.mpr (Or.inr h))

lemma listMax_ge (l : List ℤ) (b : ℤ) (hb : b ∈ l) : b ≤ listMax l := by
  cases l with
  | nil => simp at hb
  | cons a xs =>
    rcases List.mem_cons.mp hb with rfl | hb'
    · exact foldl_max_ge_init xs b
    · exact foldl_max_ge_mem xs a b hb'

lemma listMax_mem (l : List ℤ) (h : l ≠ []) : listMax l ∈ l := by
  cases l with
  | nil => exact absurd rfl h
  | cons a xs =>
    rcases foldl_max_mem xs a with h1 | h1
    · exact List.mem_cons.mpr (Or.inl h1)
    · exact List.mem_cons.mpr (Or.inr h1)

/-- A `None` backend hits the assertion: nothing yielded, batch crashed. -/
lemma pageStep_none (vis : Bool) (oracle : ℕ → VisionResponse) (page : Page)
    (h : page.backend = none) : pageStep vis oracle page = ⟨[], [], true⟩ := by
  unfold pageStep
  rw [h]

/-- Whatever `pageStep` yields is the processed page itself. -/
lemma pageStep_yielded_mem (vis : Bool) (oracle : ℕ → VisionResponse)
    (page q : Page) (h : q ∈ (pageStep vis oracle page).yielded) : q = page := by
  unfold pageStep at h
  rcases hb : page.backend with _ | b
  · rw [hb] at h
    simp at h
  · rw [hb] at h
    cases b
    · simp only [List.mem_singleton] at h
      exact h
    · rcases hp : processPage vis oracle page.rects with ⟨evs, res⟩
      rw [hp] at h
      cases res with
      | ok cs =>
        simp only [List.mem_singleton] at h
        exact h
      | crash => simp at h

/-- `processPage` on a crashing region loop: same trace, crash. -/
lemma processPage_eq_crash (vis : Bool) (oracle : ℕ → VisionResponse)
    (rects : List OcrRect) (evs : List Event)
    (hq : processRects oracle rects = (evs, .crash)) :
    processPage vis oracle rects = (evs, .crash) := by
  unfold processPage
  rw [hq]

/-- `processPage` on a successful region loop: the loop trace followed by
the `post_process_cells` hand-off and the optional debug drawing. -/
lemma processPage_eq_ok (vis : Bool) (oracle : ℕ → VisionResponse)
    (rects : List OcrRect) (evs : List Event) (cells : List TextCell)
    (hq : processRects oracle rects = (evs, .ok cells)) :
    processPage vis oracle rects
      = (evs ++ [.postProcess cells] ++ (if vis then [.draw] else []),
         .ok cells) := by
  unfold processPage
  rw [hq]

/-- Region-tagged events of `processPage` all come from the region loop. -/
lemma processPage_events_mem (vis : Bool) (oracle : ℕ → VisionResponse)
    (rects : List OcrRect) (e : Event)
    (he : e ∈ (processPage vis oracle rects).1)
    (h1 : ∀ cs, e ≠ .postProcess cs) (h2 : e ≠ .draw) :
    e ∈ (processRects oracle rects).1 := by
  rcases hq : processRects oracle rects with ⟨evs, res⟩
  cases res with
  | crash =>
    rw [processPage_eq_crash vis oracle rects evs hq] at he
    exact he
  | ok cells =>
    rw [processPage_eq_ok vis oracle rects evs cells hq] at he
    simp only [List.append_assoc, List.mem_append, List.mem_singleton] at he
    rcases he with he | he | he
    · exact he
    · exact absurd he (h1 cells)
    · cases vis with
      | true =>
        simp only [if_true, List.mem_singleton] at he
        exact absurd he h2
      | false => simp at he

/-- Confidence of a cell built from a word with symbols: the arithmetic
mean of the symbol confidences. -/
lemma cellOfWord_confidence_nonempty (idx : ℕ) (w : GWord)
    (h : w.symbols ≠ []) :
    (cellOfWord idx w).confidence
      = (w.symbols.map (·.confidence)).sum / (w.symbols.length : ℚ) := by
  show wordConf w = _
  unfold wordConf np_mean
  rw [if_neg]
  · rw [List.length_map]
  · simpa [List.isEmpty_iff] using h

/-- Confidence of a cell built from a symbol-less word: the fallback. -/
lemma cellOfWord_confidence_empty (idx : ℕ) (w : GWord)
    (h : w.symbols = []) :
    (cellOfWord idx w).confidence = fallbackConfidence := by
  show wordConf w = _
  simp [wordConf, h]

lemma cellOfWord_rect_l (idx : ℕ) (w : GWord) :
    (cellOfWord idx w).rect.l
      = (listMin (w.vertices.map (·.x)) : ℚ) / scale := rfl

lemma cellOfWord_rect_t (idx : ℕ) (w : GWord) :
    (cellOfWord idx w).rect.t
      = (listMin (w.vertices.map (·.y)) : ℚ) / scale := rfl

lemma cellOfWord_rect_r (idx : ℕ) (w : GWord) :
    (cellOfWord idx w).rect.r
      = (listMax (w.vertices.map (·.x)) : ℚ) / scale := rfl

lemma cellOfWord_rect_b (idx : ℕ) (w : GWord) :
    (cellOfWord idx w).rect.b
      = (listMax (w.vertices.map (·.y)) : ℚ) / scale := rfl

/-- Unfolding of the batch loop on a cons cell. -/
lemma callBatch_cons (vis : Bool) (oracle : Page → ℕ → VisionResponse)
    (q : Page) (ps : List Page) :
    callBatch vis oracle (q :: ps)
      = if (pageStep vis (oracle q) q).crashed then pageStep vis (oracle q) q
        else
          ⟨(pageStep vis (oracle q) q).events ++ (callBatch vis oracle ps).events,
           (pageStep vis (oracle q) q).yielded ++ (callBatch vis oracle ps).yielded,
           (callBatch vis oracle ps).crashed⟩ := rfl

/-- A batch holding a `None`-backend page crashes, and that page is never
yielded. -/
lemma callBatch_none_backend (vis : Bool) (oracle : Page → ℕ → VisionResponse)
    (batch : List Page) (p : Page) (hp : p ∈ batch) (hb : p.backend = none) :
    (callBatch vis oracle batch).crashed = true ∧
    p ∉ (callBatch vis oracle batch).yielded := by
  induction batch with
  | nil => simp at hp
  | cons q ps ih =>
    rw [callBatch_cons]
    rcases List.mem_cons.mp hp with rfl | hp'
    · rw [pageStep_none vis (oracle p) p hb]
      simp
    · by_cases hc : (pageStep vis (oracle q) q).crashed
      · rw [if_pos hc]
        refine ⟨hc, fun hmem => ?_⟩
        have hpq := pageStep_yielded_mem vis (oracle q) q p hmem
        subst hpq
        rw [pageStep_none vis (oracle p) p hb] at hmem
        simp at hmem
      · rw [if_neg hc]
        obtain ⟨ih1, ih2⟩ := ih hp'
        refine ⟨ih1, fun hmem => ?_⟩
        simp only [List.mem_append] at hmem
        rcases hmem with hmem | hmem
        · have hpq := pageStep_yielded_mem vis (oracle q) q p hmem
          subst hpq
          rw [pageStep_none vis (oracle p) p hb] at hc
          simp at hc
        · exact ih2 hmem

/-! ### Claim theorems -/

/-- C2: with `enabled=False`, `__call__` yields exactly the input pages,
the same objects in the same order, with no page modified, no event of
any kind (in particular no remote-service call) and no exception. -/
theorem C2_disabled_passthrough (vis : Bool)
    (oracle : Page → ℕ → VisionResponse) (batch : List Page) :
    callModel false vis oracle batch = ⟨[], batch, false⟩ := by
  simp [callModel]

/-- C3: in enabled mode, a page whose backend reports invalid is yielded
unmodified, raises no error, and causes no event at all — in particular
no remote-service call. -/
theorem C3_invalid_backend_passthrough (vis : Bool)
    (oracle : ℕ → VisionResponse) (page : Page)
    (h : page.backend = some false) :
    pageStep vis oracle page = ⟨[], [page], false⟩ := by
  unfold pageStep
  rw [h]

/-- Witness for C3 at a concrete invalid-backend page. -/
theorem C3_invalid_backend_passthrough_witness :
    demoInvalidPage.backend = some false ∧
    pageStep false (fun _ => resp1) demoInvalidPage
      = ⟨[], [demoInvalidPage], false⟩ :=
  ⟨rfl, C3_invalid_backend_passthrough false (fun _ => resp1) demoInvalidPage rfl⟩

/-- C4: for a region of zero area, neither a rasterization nor a remote
text-detection call is made for that region, its contribution is empty,
and the cells handed on decompose into the per-region contributions. -/
theorem C4_zero_area_region (vis : Bool) (oracle : ℕ → VisionResponse)
    (rects : List OcrRect) (k : ℕ) (r : OcrRect)
    (hk : rects.get? k = some r) (h0 : r.area = 0) :
    Event.rasterize k ∉ (processPage vis oracle rects).1 ∧
    Event.remoteCall k ∉ (processPage vis oracle rects).1 ∧
    rectCells (oracle k) r = [] ∧
    (∀ evs cells, processRects oracle rects = (evs, RunRes.ok cells) →
      cells = pageCellsFrom oracle 0 rects) := by
  refine ⟨fun hmem => ?_, fun hmem => ?_, by simp [rectCells, h0], ?_⟩
  · have h := processPage_events_mem vis oracle rects _ hmem
      (fun cs h => Event.noConfusion h) (fun h => Event.noConfusion h)
    exact (processRects_zero_area_events oracle rects k r hk h0 _ h).1 rfl
  · have h := processPage_events_mem vis oracle rects _ hmem
      (fun cs h => Event.noConfusion h) (fun h => Event.noConfusion h)
    exact (processRects_zero_area_events oracle rects k r hk h0 _ h).2 rfl
  · intro evs cells hq
    unfold processRects at hq
    simpa using processRectsLoop_ok oracle rects 0 [] [] evs cells hq

/-- Witness for C4 at a concrete zero-area region. -/
theorem C4_zero_area_region_witness :
    rectsZ.get? 0 = some ⟨0⟩ ∧ (⟨0⟩ : OcrRect).area = 0 ∧
    (Event.rasterize 0 ∉ (processPage false (fun _ => resp1) rectsZ).1 ∧
     Event.remoteCall 0 ∉ (processPage false (fun _ => resp1) rectsZ).1 ∧
     rectCells resp1 ⟨0⟩ = [] ∧
     (∀ evs cells,
        processRects (fun _ => resp1) rectsZ = (evs, RunRes.ok cells) →
        cells = pageCellsFrom (fun _ => resp1) 0 rectsZ)) :=
  ⟨rfl, rfl, C4_zero_area_region false (fun _ => resp1) rectsZ 0 ⟨0⟩ rfl rfl⟩

/-- C10: in enabled mode, a page whose backend is `None` trips the
`assert`, crashing the whole batch; that page is never yielded. -/
theorem C10_none_backend_crashes (vis : Bool)
    (oracle : Page → ℕ → VisionResponse) (batch : List Page) (p : Page)
    (hp : p ∈ batch) (hb : p.backend = none) :
    (callModel true vis oracle batch).crashed = true ∧
    p ∉ (callModel true vis oracle batch).yielded := by
  have h := callBatch_none_backend vis oracle batch p hp hb
  simpa [callModel] using h

/-- Witness for C10 at a concrete one-page batch with a `None` backend. -/
theorem C10_none_backend_crashes_witness :
    demoNonePage ∈ [demoNonePage] ∧ demoNonePage.backend = none ∧
    (callModel true false (fun _ _ => resp1) [demoNonePage]).crashed = true ∧
    demoNonePage ∉ (callModel true false (fun _ _ => resp1) [demoNonePage]).yielded := by
  have h := C10_none_backend_crashes false (fun _ _ => resp1) [demoNonePage]
    demoNonePage (by simp) rfl
  exact ⟨by simp, rfl, h.1, h.2⟩

/-- C1 is false as stated: with two one-word regions the list handed to
post-processing carries the indices [0, 0] — the region-local counter is
reset per region — not the per-page contiguous sequence [0, 1]. -/
theorem C1_page_indices_cex :
    (processRects (fun _ => resp1) rects2).2 = RunRes.ok demoCellsTwo ∧
    demoCellsTwo.length = 2 ∧
    demoCellsTwo.map (·.index) = [0, 0] ∧
    ¬ demoCellsTwo.map (·.index) = List.range demoCellsTwo.length := by
  refine ⟨rfl, rfl, rfl, by decide⟩

/-- C1 (amended): the cells handed to post-processing are the
concatenation of the per-region contributions, and within each region's
contribution the k-th cell carries index k (the counter restarts at zero
for every region). -/
theorem C1_region_indices (oracle : ℕ → VisionResponse)
    (rects : List OcrRect) (evs : List Event) (cells : List TextCell)
    (h : processRects oracle rects = (evs, RunRes.ok cells)) :
    cells = pageCellsFrom oracle 0 rects ∧
    ∀ resp r, (rectCells resp r).map (·.index)
        = List.range (rectCells resp r).length := by
  constructor
  · unfold processRects at h
    simpa using processRectsLoop_ok oracle rects 0 [] [] evs cells h
  · exact fun resp r => rectCells_map_index resp r

/-- Witness for the amended C1 at a concrete two-region page. -/
theorem C1_region_indices_witness :
    processRects (fun _ => resp1) rects2 = (demoEvs2, RunRes.ok demoCellsTwo) ∧
    demoCellsTwo = pageCellsFrom (fun _ => resp1) 0 rects2 ∧
    (rectCells resp1 rect1).map (·.index)
      = List.range (rectCells resp1 rect1).length := by
  have h := C1_region_indices (fun _ => resp1) rects2 demoEvs2 demoCellsTwo rfl
  exact ⟨rfl, h.1, h.2 resp1 rect1⟩

/-- C7: a service-reported error for one region contributes no cells and
is logged, while the cells of every other region of the page are still
emitted and handed to post-processing. -/
theorem C7_error_region_isolated (vis : Bool) (oracle : ℕ → VisionResponse)
    (rects : List OcrRect) (k : ℕ) (r : OcrRect) (cells : List TextCell)
    (hk : rects.get? k = some r) (ha : r.area ≠ 0)
    (he : (oracle k).errorMessage ≠ "")
    (hok : (processRects oracle rects).2 = RunRes.ok cells) :
    rectCells (oracle k) r = [] ∧
    Event.logError k ∈ (processPage vis oracle rects).1 ∧
    cells = pageCellsFrom oracle 0 rects ∧
    Event.postProcess (pageCellsFrom oracle 0 rects)
      ∈ (processPage vis oracle rects).1 := by
  rcases hq : processRects oracle rects with ⟨evs, res⟩
  rw [hq] at hok
  cases res with
  | crash => exact absurd hok (by simp)
  | ok cells' =>
    have hok' : RunRes.ok cells' = RunRes.ok cells := hok
    injection hok' with hcc
    subst hcc
    have hq' := hq
    unfold processRects at hq'
    have hdec : cells' = pageCellsFrom oracle 0 rects := by
      simpa using processRectsLoop_ok oracle rects 0 [] [] evs cells' hq'
    have hevs : evs = eventsFrom oracle 0 rects := by
      simpa using processRectsLoop_ok_events oracle rects 0 [] [] evs cells' hq'
    have hmem : Event.logError k ∈ eventsFrom oracle 0 rects := by
      apply eventsFrom_mem oracle rects 0 k r hk
      simp only [Nat.zero_add]
      rw [processRect_error (oracle k) k r ha he]
      simp
    have hpp := processPage_eq_ok vis oracle rects evs cells' hq
    refine ⟨by simp [rectCells, ha, he], ?_, hdec, ?_⟩
    · rw [hpp]
      simp only [List.append_assoc, List.mem_append]
      exact Or.inl (hevs ▸ hmem)
    · rw [hpp, ← hdec]
      simp

/-- Witness for C7: first region errors, second region's cell is still
handed to post-processing. -/
theorem C7_error_region_isolated_witness :
    rects2.get? 0 = some rect1 ∧ rect1.area ≠ 0 ∧
    (oracleErr 0).errorMessage ≠ "" ∧
    (processRects oracleErr rects2).2 = RunRes.ok (cellsOfGPage gpage1) ∧
    (rectCells (oracleErr 0) rect1 = [] ∧
     Event.logError 0 ∈ (processPage false oracleErr rects2).1 ∧
     cellsOfGPage gpage1 = pageCellsFrom oracleErr 0 rects2 ∧
     Event.postProcess (pageCellsFrom oracleErr 0 rects2)
       ∈ (processPage false oracleErr rects2).1) := by
  refine ⟨rfl, by simp [rect1], by decide, rfl, ?_⟩
  exact C7_error_region_isolated false oracleErr rects2 0 rect1
    (cellsOfGPage gpage1) rfl (by simp [rect1]) (by decide) rfl

/-- C8 is false as stated: for a response with no error, a non-empty
annotation list and zero pages (a page count different from one), the
warning is logged but `pages[0]` raises instead of proceeding, and the
whole page aborts before any hand-off to post-processing. -/
theorem C8_first_page_cex :
    respNoPages.errorMessage = "" ∧ respNoPages.textAnnotationsCount ≠ 0 ∧
    respNoPages.pages.length ≠ 1 ∧
    Event.logWarning 0 ∈ (processRect respNoPages 0 rect1).1 ∧
    (processRect respNoPages 0 rect1).2 = RunRes.crash ∧
    (processPage false (fun _ => respNoPages) [rect1]).2 = RunRes.crash := by
  decide

/-- C8 (amended): for a region whose response has no error, a non-empty
annotation list and at least one page but a page count different from
one, a warning is logged and processing proceeds using exactly the first
response page; pages beyond the first contribute no cells. -/
theorem C8_first_page_used (resp : VisionResponse) (i : ℕ) (r : OcrRect)
    (gp : GPage) (rest : List GPage)
    (ha : r.area ≠ 0) (he : resp.errorMessage = "")
    (hn : resp.textAnnotationsCount ≠ 0)
    (hp : resp.pages = gp :: rest) (hlen : resp.pages.length ≠ 1) :
    processRect resp i r
      = ([.rasterize i, .remoteCall i, .logWarning i],
         RunRes.ok (cellsOfGPage gp)) ∧
    rectCells resp r = cellsOfGPage gp := by
  rw [hp] at hlen
  unfold processRect rectCells
  rw [hp]
  simp only [List.length_cons] at hlen
  have hrest : rest ≠ [] := by
    intro hr
    subst hr
    simp at hlen
  simp [ha, he, hn, hrest]

/-- Witness for the amended C8 at a concrete two-page response. -/
theorem C8_first_page_used_witness :
    rect1.area ≠ 0 ∧ resp2pages.errorMessage = "" ∧
    resp2pages.textAnnotationsCount ≠ 0 ∧
    resp2pages.pages = gpage1 :: [gpage1] ∧
    resp2pages.pages.length ≠ 1 ∧
    (processRect resp2pages 0 rect1
        = ([.rasterize 0, .remoteCall 0, .logWarning 0],
           RunRes.ok (cellsOfGPage gpage1)) ∧
     rectCells resp2pages rect1 = cellsOfGPage gpage1) := by
  refine ⟨by decide, rfl, by decide, rfl, by decide, ?_⟩
  exact C8_first_page_used resp2pages 0 rect1 gpage1 [gpage1]
    (by decide) rfl (by decide) rfl (by decide)

/-- C5: the emitted cell's bounding rectangle is
(min x, min y, max x, max y) of the word's vertices, each divided by the
scale factor 3: each side is a bound on every scaled vertex and is
attained at some vertex; in particular vertices spanning raster-space
(0,0)-(300,300) map to the page-space rectangle (0,0)-(100,100). -/
theorem C5_rect_minmax (idx : ℕ) (w : GWord) (h : w.vertices ≠ []) :
    (∀ v ∈ w.vertices,
        (cellOfWord idx w).rect.l ≤ (v.x : ℚ) / scale ∧
        (cellOfWord idx w).rect.t ≤ (v.y : ℚ) / scale ∧
        (v.x : ℚ) / scale ≤ (cellOfWord idx w).rect.r ∧
        (v.y : ℚ) / scale ≤ (cellOfWord idx w).rect.b) ∧
    (∃ v ∈ w.vertices, (cellOfWord idx w).rect.l = (v.x : ℚ) / scale) ∧
    (∃ v ∈ w.vertices, (cellOfWord idx w).rect.t = (v.y : ℚ) / scale) ∧
    (∃ v ∈ w.vertices, (cellOfWord idx w).rect.r = (v.x : ℚ) / scale) ∧
    (∃ v ∈ w.vertices, (cellOfWord idx w).rect.b = (v.y : ℚ) / scale) ∧
    scale = 3 ∧
    (cellOfWord 0 demoWord300).rect = ⟨0, 0, 100, 100⟩ := by
  have h3 : scale = 3 := rfl
  have hxne : w.vertices.map (·.x) ≠ [] := by
    simpa using h
  have hyne : w.vertices.map (·.y) ≠ [] := by
    simpa using h
  refine ⟨?_, ?_, ?_, ?_, ?_, h3, ?_⟩
  · intro v hv
    refine ⟨?_, ?_, ?_, ?_⟩
    · rw [cellOfWord_rect_l, h3]
      have h1 : ((listMin (w.vertices.map (·.x)) : ℤ) : ℚ) ≤ (v.x : ℚ) := by
        exact_mod_cast listMin_le _ _ (List.mem_map.mpr ⟨v, hv, rfl⟩)
      linarith
    · rw [cellOfWord_rect_t, h3]
      have h1 : ((listMin (w.vertices.map (·.y)) : ℤ) : ℚ) ≤ (v.y : ℚ) := by
        exact_mod_cast listMin_le _ _ (List.mem_map.mpr ⟨v, hv, rfl⟩)
      linarith
    · rw [cellOfWord_rect_r, h3]
      have h1 : (v.x : ℚ) ≤ ((listMax (w.vertices.map (·.x)) : ℤ) : ℚ) := by
        exact_mod_cast listMax_ge _ _ (List.mem_map.mpr ⟨v, hv, rfl⟩)
      linarith
    · rw [cellOfWord_rect_b, h3]
      have h1 : (v.y : ℚ) ≤ ((listMax (w.vertices.map (·.y)) : ℤ) : ℚ) := by
        exact_mod_cast listMax_ge _ _ (List.mem_map.mpr ⟨v, hv, rfl⟩)
      linarith
  · obtain ⟨v, hv, hvx⟩ := List.mem_map.mp (listMin_mem _ hxne)
    exact ⟨v, hv, by rw [cellOfWord_rect_l, ← hvx]⟩
  · obtain ⟨v, hv, hvy⟩ := List.mem_map.mp (listMin_mem _ hyne)
    exact ⟨v, hv, by rw [cellOfWord_rect_t, ← hvy]⟩
  · obtain ⟨v, hv, hvx⟩ := List.mem_map.mp (listMax_mem _ hxne)
    exact ⟨v, hv, by rw [cellOfWord_rect_r, ← hvx]⟩
  · obtain ⟨v, hv, hvy⟩ := List.mem_map.mp (listMax_mem _ hyne)
    exact ⟨v, hv, by rw [cellOfWord_rect_b, ← hvy]⟩
  · have hx : listMin (demoWord300.vertices.map (·.x)) = 0 := by decide
    have hy : listMin (demoWord300.vertices.map (·.y)) = 0 := by decide
    have hX : listMax (demoWord300.vertices.map (·.x)) = 300 := by decide
    have hY : listMax (demoWord300.vertices.map (·.y)) = 300 := by decide
    have hrect : (cellOfWord 0 demoWord300).rect
        = ⟨(listMin (demoWord300.vertices.map (·.x)) : ℚ) / scale,
           (listMin (demoWord300.vertices.map (·.y)) : ℚ) / scale,
           (listMax (demoWord300.vertices.map (·.x)) : ℚ) / scale,
           (listMax (demoWord300.vertices.map (·.y)) : ℚ) / scale⟩ := rfl
    rw [hrect, hx, hy, hX, hY]
    simp only [BoundingBox.mk.injEq]
    norm_num [scale]

/-- Witness for C5 at the (0,0)-(300,300) demo word. -/
theorem C5_rect_minmax_witness :
    demoWord300.vertices ≠ [] ∧
    (∃ v ∈ demoWord300.vertices,
        (cellOfWord 0 demoWord300).rect.l = (v.x : ℚ) / scale) ∧
    (cellOfWord 0 demoWord300).rect = ⟨0, 0, 100, 100⟩ := by
  have h := C5_rect_minmax 0 demoWord300 (by decide)
  exact ⟨by decide, h.2.1, h.2.2.2.2.2.2⟩

/-- C6: a cell from a word with symbols carries the arithmetic mean of
the symbol confidences — confidences 0.8, 0.9, 1.0 yield 0.9 — while a
symbol-less word yields the fallback constant. -/
theorem C6_confidence_mean (idx : ℕ) (w : GWord) (h : w.symbols ≠ []) :
    (cellOfWord idx w).confidence
        = (w.symbols.map (·.confidence)).sum / (w.symbols.length : ℚ) ∧
    (cellOfWord 0 demoWord36).confidence = 9 / 10 ∧
    (∀ idx2 w', w'.symbols = [] →
        (cellOfWord idx2 w').confidence = fallbackConfidence) := by
  refine ⟨cellOfWord_confidence_nonempty idx w h, ?_, ?_⟩
  · rw [cellOfWord_confidence_nonempty 0 demoWord36 (by decide)]
    norm_num [demoWord36]
  · exact fun idx2 w' h' => cellOfWord_confidence_empty idx2 w' h'

/-- Witness for C6 at the 0.8/0.9/1.0 demo word. -/
theorem C6_confidence_mean_witness :
    demoWord36.symbols ≠ [] ∧
    (cellOfWord 0 demoWord36).confidence
        = (demoWord36.symbols.map (·.confidence)).sum
            / (demoWord36.symbols.length : ℚ) ∧
    (cellOfWord 0 demoWord36).confidence = 9 / 10 := by
  have h := C6_confidence_mean 0 demoWord36 (by decide)
  exact ⟨by decide, h.1, h.2.1⟩

/-- C9: the fallback confidence constant is 100.0, strictly above the
[0,1] range of every symbol-derived mean, so a symbol-less cell is
distinguishable from every symbol-derived one. -/
theorem C9_fallback_sentinel (idx : ℕ) (w : GWord) (h1 : w.symbols ≠ [])
    (h2 : ∀ s ∈ w.symbols, 0 ≤ s.confidence ∧ s.confidence ≤ 1) :
    fallbackConfidence = 100 ∧ 1 < fallbackConfidence ∧
    0 ≤ (cellOfWord idx w).confidence ∧
    (cellOfWord idx w).confidence ≤ 1 ∧
    (cellOfWord idx w).confidence ≠ fallbackConfidence ∧
    (∀ idx2 w', w'.symbols = [] →
        (cellOfWord idx2 w').confidence = fallbackConfidence) := by
  have hconf := cellOfWord_confidence_nonempty idx w h1
  have hlen : (0 : ℚ) < (w.symbols.length : ℚ) := by
    have hl : 0 < w.symbols.length := List.length_pos.mpr h1
    exact_mod_cast hl
  have hsum0 : 0 ≤ (w.symbols.map (·.confidence)).sum := by
    apply List.sum_nonneg
    intro x hx
    obtain ⟨s, hs, rfl⟩ := List.mem_map.mp hx
    exact (h2 s hs).1
  have hsum1 : (w.symbols.map (·.confidence)).sum ≤ (w.symbols.length : ℚ) := by
    have hb := List.sum_le_card_nsmul (w.symbols.map (·.confidence)) 1 ?_
    · simpa [nsmul_eq_mul] using hb
    · intro x hx
      obtain ⟨s, hs, rfl⟩ := List.mem_map.mp hx
      exact (h2 s hs).2
  have hle1 : (cellOfWord idx w).confidence ≤ 1 := by
    rw [hconf, div_le_one hlen]
    exact hsum1
  refine ⟨rfl, by norm_num [fallbackConfidence], ?_, hle1, ?_, ?_⟩
  · rw [hconf]
    exact div_nonneg hsum0 hlen.le
  · apply ne_of_lt
    calc (cellOfWord idx w).confidence ≤ 1 := hle1
      _ < fallbackConfidence := by norm_num [fallbackConfidence]
  · exact fun idx2 w' h' => cellOfWord_confidence_empty idx2 w' h'

/-- Witness for C9 at the 0.8/0.9/1.0 demo word. -/
theorem C9_fallback_sentinel_witness :
    demoWord36.symbols ≠ [] ∧
    (∀ s ∈ demoWord36.symbols, 0 ≤ s.confidence ∧ s.confidence ≤ 1) ∧
    (0 ≤ (cellOfWord 0 demoWord36).confidence ∧
     (cellOfWord 0 demoWord36).confidence ≤ 1 ∧
     (cellOfWord 0 demoWord36).confidence ≠ fallbackConfidence) := by
  have hb : ∀ s ∈ demoWord36.symbols, 0 ≤ s.confidence ∧ s.confidence ≤ 1 := by
    intro s hs
    have hs' : s ∈ [(⟨"a", 4/5⟩ : Symbol), ⟨"b", 9/10⟩, ⟨"c", 1⟩] := hs
    simp only [List.mem_cons, List.not_mem_nil, or_false] at hs'
    rcases hs' with rfl | rfl | rfl <;> norm_num
  have h := C9_fallback_sentinel 0 demoWord36 (by decide) hb
  exact ⟨by decide, hb, h.2.2.1, h.2.2.2.1, h.2.2.2.2.1⟩

end GVOcr
